import Mathlib

/-!
# Verification of the monoruby JIT pipeline core

Shallow embedding of the register allocator, code generator sizing logic,
generic shift operators, bytecode generator and evaluator driver of the
monoruby repository, together with theorems settling the specification
claims about them.  Each definition mirrors one function of the Rust
sources; machine integers are modelled as `Nat`/`Int` with explicit
wrap-around where the Rust code can overflow or truncate.
-/

namespace Monoruby

/-! ## Physical register mapping (src/codegen.rs, `Codegen::g_phys_reg` / `f_phys_reg`) -/

/-- Physical registers for general purpose values: either a hardware
register number or a stack slot given by its byte offset from rbp
(`[rbp - ofs]`).  Mirrors `enum GeneralPhysReg` in codegen.rs. -/
inductive GeneralPhysReg where
  | Reg : Nat → GeneralPhysReg
  | Stack : Nat → GeneralPhysReg
deriving DecidableEq, Repr

/-- Physical registers for floating point values.  Mirrors `enum
FloatPhysReg` in codegen.rs. -/
inductive FloatPhysReg where
  | Xmm : Nat → FloatPhysReg
  | Stack : Nat → FloatPhysReg
deriving DecidableEq, Repr

/-- `Codegen::g_phys_reg` (codegen.rs lines 57-64): a general virtual
register below 5 maps to hardware register `reg + 8`; otherwise it is a
stack slot at byte offset `(reg - 4 + g_offset) * 8 + 8` from rbp. -/
def g_phys_reg (g_offset reg : Nat) : GeneralPhysReg :=
  if reg < 5 then .Reg (reg + 8)
  else .Stack ((reg - 4 + g_offset) * 8 + 8)

/-- `Codegen::f_phys_reg` (codegen.rs lines 71-78): a float virtual
register below 15 maps to xmm register `reg + 1`; otherwise it is a
stack slot at byte offset `(reg - 14 + f_offset) * 8 + 8` from rbp. -/
def f_phys_reg (f_offset reg : Nat) : FloatPhysReg :=
  if reg < 15 then .Xmm (reg + 1)
  else .Stack ((reg - 14 + f_offset) * 8 + 8)

/-- The C1 claim as stated: general indices below 4 map into R8..R11 and
every index from 4 on spills to the stack; float indices below 14 map
into XMM1..XMM14 and every index from 14 on spills. -/
def claimC1 : Prop :=
  ∀ off idx : Nat,
    (idx < 4 → ∃ r, g_phys_reg off idx = .Reg r ∧ 8 ≤ r ∧ r ≤ 11) ∧
    (4 ≤ idx → ∃ ofs, g_phys_reg off idx = .Stack ofs) ∧
    (idx < 14 → ∃ x, f_phys_reg off idx = .Xmm x ∧ 1 ≤ x ∧ x ≤ 15) ∧
    (14 ≤ idx → ∃ ofs, f_phys_reg off idx = .Stack ofs)

/-! ## Frame sizing (src/codegen.rs, `Codegen::compile_func` / `prologue`) -/

/-- Spill count for general registers, from `compile_func` (codegen.rs
lines 372-375): `match func.g_regs { i if i < 5 => 0, i => i - 4 }`. -/
def g_spill (g_regs : Nat) : Nat :=
  if g_regs < 5 then 0 else g_regs - 4

/-- Spill count for float registers, from `compile_func` (codegen.rs
lines 376-379): `match func.f_regs { i if i < 15 => 0, i => i - 14 }`. -/
def f_spill (f_regs : Nat) : Nat :=
  if f_regs < 15 then 0 else f_regs - 14

/-- Bytes reserved by `Codegen::prologue` (codegen.rs lines 972-982):
after `push rbp; mov rbp, rsp`, when the slot count is nonzero it emits
`sub rsp, (locals + locals % 2) * 8`. -/
def prologue_reserve (slots : Nat) : Nat :=
  if slots = 0 then 0 else (slots + slots % 2) * 8

/-- Total stack reservation of a compiled function with `locals_num`
local slots, `g_regs` general and `f_regs` float virtual registers,
as wired up in `compile_func` (codegen.rs line 385):
`self.prologue(locals_num + g_spill + f_spill)`. -/
def frame_reserve (locals_num g_regs f_regs : Nat) : Nat :=
  prologue_reserve (locals_num + g_spill g_regs + f_spill f_regs)

/-! ## Generic shift operators (src/executor/op.rs, `shl_values` / `shr_values`)

The tagged `Value` type itself lives in value.rs, which is not among the
sources; it is modelled from the spec below. -/

/-- Modelled from the spec: the tagged 64-bit `Value` (value.rs is not in
the sources).  Variants: integer (fixnum, 63-bit signed, carried here as
an `Int`), float (payload abstracted to its bit pattern), boolean, nil,
and a stand-in for the heap-boxed variants.  Only the integer variant is
inspected by the shift operators below. -/
inductive Value where
  | integer : Int → Value
  | float : Nat → Value
  | bool : Bool → Value
  | nil : Value
  | boxed : Value
deriving DecidableEq, Repr

/-- Two's-complement wrap of an integer into the i64 range, used to model
Rust `i64` bit-shift results. -/
def wrap64 (x : Int) : Int :=
  (x + 2 ^ 63) % 2 ^ 64 - 2 ^ 63

/-- The Rust cast chain `x as u64 as u32` on an `i64`: reinterpret the
two's-complement bits and keep the low 32 of them. -/
def as_u32 (x : Int) : Nat :=
  (x % 2 ^ 32).toNat

/-- Rust `i64::checked_shl`: `none` when the shift amount is 64 or more,
otherwise the bits shifted left (wrapping in two's complement). -/
def checked_shl (lhs : Int) (amount : Nat) : Option Int :=
  if amount < 64 then some (wrap64 (lhs * 2 ^ amount)) else none

/-- Rust `i64::checked_shr` (arithmetic shift): `none` when the shift
amount is 64 or more, otherwise floor division by `2 ^ amount`. -/
def checked_shr (lhs : Int) (amount : Nat) : Option Int :=
  if amount < 64 then some (Int.fdiv lhs (2 ^ amount)) else none

/-- `shl_values` (op.rs lines 62-71): on two integers, shift left by
`rhs as u64 as u32` (right for negative `rhs`), substituting 0 when the
checked shift overflows; any other operand pair is an `unreachable!`
path, modelled as `none`. -/
def shl_values (lhs rhs : Value) : Option Value :=
  match lhs, rhs with
  | .integer l, .integer r =>
      some (.integer (if 0 ≤ r then (checked_shl l (as_u32 r)).getD 0
                      else (checked_shr l (as_u32 (-r))).getD 0))
  | _, _ => none

/-- `shr_values` (op.rs lines 51-60): mirror image of `shl_values`. -/
def shr_values (lhs rhs : Value) : Option Value :=
  match lhs, rhs with
  | .integer l, .integer r =>
      some (.integer (if 0 ≤ r then (checked_shr l (as_u32 r)).getD 0
                      else (checked_shl l (as_u32 (-r))).getD 0))
  | _, _ => none

/-- The C4 claim as stated: a shift by any `rhs ≥ 64` yields integer 0. -/
def claimC4 : Prop :=
  ∀ l r : Int, 64 ≤ r →
    shl_values (.integer l) (.integer r) = some (.integer 0) ∧
    shr_values (.integer l) (.integer r) = some (.integer 0)

/-! ## MIR virtual register allocation (src/mcir.rs, `alloc_greg` / `alloc_freg`)

A register info record carries `ssareg : Option<SsaReg>`; the register is
vacant (its liveness bit off) when it is `None`. -/

/-- The inner `new_greg` of `MachineIRContext::alloc_greg` (mcir.rs lines
281-296): scan `g_reginfo` for the first entry whose binding is vacant
and apply the new SSA register to it; if none is vacant, push a fresh
entry at the end.  Returns the chosen index and the updated pool. -/
def new_greg (pool : List (Option Nat)) (ssareg : Nat) : Nat × List (Option Nat) :=
  match pool with
  | [] => (0, [some ssareg])
  | none :: rest => (0, some ssareg :: rest)
  | some x :: rest =>
      let (i, rest') := new_greg rest ssareg
      (i + 1, some x :: rest')

/-- The inner `new_freg` of `MachineIRContext::alloc_freg` (mcir.rs lines
299-314), the same scan over `f_reginfo`. -/
def new_freg (pool : List (Option Nat)) (ssareg : Nat) : Nat × List (Option Nat) :=
  match pool with
  | [] => (0, [some ssareg])
  | none :: rest => (0, some ssareg :: rest)
  | some x :: rest =>
      let (i, rest') := new_freg rest ssareg
      (i + 1, some x :: rest')

/-! ## Types and return instructions (src/codegen.rs, `compile_bb` return arms) -/

/-- The `Type` enum of the JIT pipeline (renamed, since `Type` is a Lean
keyword): Integer, Float, Bool. -/
inductive Ty where
  | Integer
  | Float
  | Bool
deriving DecidableEq, Repr

/-- Return instructions of machine IR as consumed by `compile_bb`
(codegen.rs lines 690-744): `FRet` returns a float, `IRet` returns a
general value carrying the type recorded at MIR construction.  (The McIR
revision matching codegen.rs is not in the sources; these constructors
are reconstructed from their uses in codegen.rs.) -/
inductive McRet where
  | FRet
  | IRet : Ty → McRet
deriving DecidableEq, Repr

/-- What a return arm of `compile_bb` does after emitting the move and
the epilogue: proceed, or hit the `panic!("Return type mismatch ...")`. -/
inductive CompileStep where
  | emitted
  | panicked
deriving DecidableEq, Repr

/-- The return-type check of `compile_bb` (codegen.rs lines 713-716 and
741-743): `FRet` panics unless the declared type is Float; `IRet` panics
unless the declared type equals the instruction's type. -/
def ret_type_check (ret_ty : Ty) (inst : McRet) : CompileStep :=
  match inst with
  | .FRet => if ret_ty = .Float then .emitted else .panicked
  | .IRet ty => if ret_ty = ty then .emitted else .panicked

/-- A machine IR function as far as the return-type check is concerned:
its declared return type and the return instructions of its body. -/
structure McFunc where
  ret_ty : Ty
  rets : List McRet
deriving DecidableEq, Repr

/-- Outcome of the first invocation of a function in
`Evaluator::eval_function` / `jit_compile` (eval.rs lines 40-120):
`markedFail` records `JitState::Fail` and falls back to the interpreter
(the `new_func_from_ast` error path), `cachedSuccess` records
`JitState::Success`, and `processAborted` is an uncaught Rust `panic!`
escaping `jit_compile` — the crate has no `catch_unwind`, so the whole
process terminates and no cache entry is written. -/
inductive JitOutcome where
  | markedFail
  | cachedSuccess
  | processAborted
deriving DecidableEq, Repr

/-- First-call behaviour of the driver on a function whose HIR→MIR
construction either failed (left) or produced `f` (right): a MIR error
downgrades to `Fail`; otherwise code generation runs, and any return
instruction failing `ret_type_check` raises the uncaught panic. -/
def eval_first_call (mir_result : Except Unit McFunc) : JitOutcome :=
  match mir_result with
  | .error _ => .markedFail
  | .ok f =>
      if f.rets.any (fun r => ret_type_check f.ret_ty r = .panicked)
      then .processAborted
      else .cachedSuccess

/-- The C2 claim as stated: a return-type mismatch aborts only the
current compilation and the function is marked `Fail`. -/
def claimC2 : Prop :=
  ∀ f : McFunc, (∃ r ∈ f.rets, ret_type_check f.ret_ty r = .panicked) →
    eval_first_call (.ok f) = .markedFail

/-! ## The driver cache (src/eval.rs, `Evaluator::eval_function`) -/

/-- Per-function JIT state, `enum JitState` of eval.rs: `Fail`, or
`Success(dest_label, return_type)`. -/
inductive JitState where
  | Fail
  | Success : Nat → Ty → JitState
deriving DecidableEq, Repr

/-- How one invocation runs: through the generated code or through the
HIR interpreter loop at the bottom of `eval_function`. -/
inductive RunMode where
  | runJit : Nat → Ty → RunMode
  | interpret
deriving DecidableEq, Repr

/-- The dispatch of `Evaluator::eval_function` (eval.rs lines 80-120) for
one invocation of function `f`.  `compile` is the result `jit_compile`
would produce if called.  Returns the run mode, whether a compilation
attempt was made, and the updated cache.  An absent cache entry triggers
compilation and records `Success` or `Fail`; a `Fail` entry goes straight
to the interpreter; a `Success` entry runs the cached code. -/
def eval_dispatch (cache : Nat → Option JitState) (compile : Option (Nat × Ty))
    (f : Nat) : RunMode × Bool × (Nat → Option JitState) :=
  match cache f with
  | none =>
      match compile with
      | some (dest, ty) =>
          (.runJit dest ty, true, fun g => if g = f then some (.Success dest ty) else cache g)
      | none =>
          (.interpret, true, fun g => if g = f then some .Fail else cache g)
  | some .Fail => (.interpret, false, cache)
  | some (.Success dest ty) => (.runJit dest ty, false, cache)

/-- Run a sequence of invocations through `eval_dispatch`; each list item
is a target function id paired with the compilation oracle for that call.
Returns the per-call observations (target, run mode, attempted) and the
final cache. -/
def run_calls (cache : Nat → Option JitState) :
    List (Nat × Option (Nat × Ty)) → List (Nat × RunMode × Bool) × (Nat → Option JitState)
  | [] => ([], cache)
  | (f, compile) :: rest =>
      let (mode, attempted, cache') := eval_dispatch cache compile f
      let (obs, final) := run_calls cache' rest
      ((f, mode, attempted) :: obs, final)

/-! ## Bytecode generator (src/executor/bytecodegen.rs)

The embedding covers the AST shapes the claims range over: literals,
self, unary negation, the supported binary operators, local variables,
if, while, return and compound statements.  Identifier ids are `Nat`,
temp and local slot indices are `Nat` (the Rust `u16`s never wrap on the
covered paths), and float literals are abstracted to their numeric
payload, which none of the claims inspect. -/

/-- Comparison kinds, `enum CmpKind`. -/
inductive CmpKind where
  | Eq | Ne | Gt | Ge | Lt | Le
deriving DecidableEq, Repr

/-- Bytecode registers before index resolution, `enum BcReg`: self, a
temporary, or a named local slot. -/
inductive BcReg where
  | Self_
  | Temp : Nat → BcReg
  | Local : Nat → BcReg
deriving DecidableEq, Repr

/-- Literal values placed in the per-function constant pool by
`gen_const`; only the variants produced on the covered paths. -/
inductive BcValue where
  | bool : Bool → BcValue
  | float : Int → BcValue
  | fixnum : Int → BcValue
deriving DecidableEq, Repr

/-- Bytecode IR instructions, `enum BcIr`, restricted to the opcodes the
covered AST shapes can emit.  Branch targets are label indices. -/
inductive BcIr where
  | Br : Nat → BcIr
  | CondBr : BcReg → Nat → BcIr
  | CondNotBr : BcReg → Nat → BcIr
  | Integer : BcReg → Int → BcIr
  | Const : BcReg → Nat → BcIr
  | Nil : BcReg → BcIr
  | Neg : BcReg → BcReg → BcIr
  | Add : BcReg → BcReg → BcReg → BcIr
  | Addri : BcReg → BcReg → Int → BcIr
  | Sub : BcReg → BcReg → BcReg → BcIr
  | Subri : BcReg → BcReg → Int → BcIr
  | Mul : BcReg → BcReg → BcReg → BcIr
  | Div : BcReg → BcReg → BcReg → BcIr
  | Cmp : CmpKind → BcReg → BcReg → BcReg → BcIr
  | Cmpri : CmpKind → BcReg → BcReg → Int → BcIr
  | Ret : BcReg → BcIr
  | Mov : BcReg → BcReg → BcIr
deriving DecidableEq, Repr

/-- Binary operators of the AST; `other` stands for every operator the
generator rejects with `Unimplemented`. -/
inductive BinOpKind where
  | add | sub | mul | div
  | cmp : CmpKind → BinOpKind
  | other
deriving DecidableEq, Repr

/-- AST nodes (the `Node` / `NodeKind` shapes handled by the covered
arms of `gen_expr` / `gen_store_expr`).  `while_` keeps the parser's
`cond_op` flag, which the generator asserts to be true; `neg` is the
`UnOp` arm, whose operator is asserted to be `Neg`. -/
inductive Node where
  | nil
  | bool : Bool → Node
  | selfValue
  | integer : Int → Node
  | float : Int → Node
  | localVar : Nat → Node
  | neg : Node → Node
  | binOp : BinOpKind → Node → Node → Node
  | if_ : Node → Node → Node → Node
  | while_ : Bool → Node → Node → Node
  | ret : Node → Node
  | compStmt : List Node → Node

/-- Errors of bytecode generation, `enum MonorubyErr`, plus the modelling
artifacts: `assertFail` for a failed Rust `assert!`/debug underflow and
`fuelExhausted` for running out of recursion fuel (never hit at adequate
fuel). -/
inductive MonorubyErr where
  | Unimplemented
  | UndefinedLocal : Nat → MonorubyErr
  | assertFail
  | unreachableHit
  | fuelExhausted
deriving DecidableEq, Repr

/-- The mutable bytecode-generation state of `NormalFuncInfo`: the dense
local-name map (slot `i` holds the name at position `i`), the temp
cursor, the temp high-water mark `reg_num`, and the literal pool. -/
structure GenState where
  locals : List Nat
  temp : Nat
  reg_num : Nat
  literals : List BcValue
deriving DecidableEq, Repr

/-- The bytecode IR under construction, `struct IrContext`: instruction
vector and destination-label table. -/
structure IrContext where
  ir : List BcIr
  labels : List (Option Nat)
deriving DecidableEq, Repr

/-- `IrContext::push`. -/
def IrContext.pushI (c : IrContext) (op : BcIr) : IrContext :=
  { c with ir := c.ir ++ [op] }

/-- `IrContext::new_label`: reserve a fresh unbound label, returning its
index. -/
def IrContext.new_label (c : IrContext) : Nat × IrContext :=
  (c.labels.length, { c with labels := c.labels ++ [none] })

/-- `IrContext::apply_label`: bind a label to the current instruction
position. -/
def IrContext.apply_label (c : IrContext) (label : Nat) : IrContext :=
  { c with labels := c.labels.set label (some c.ir.length) }

/-- `NormalFuncInfo::next_reg`. -/
def GenState.next_reg (s : GenState) : Nat := s.temp

/-- `NormalFuncInfo::push`: bump the temp cursor, tracking the
high-water mark, and return the previous cursor. -/
def GenState.push (s : GenState) : Nat × GenState :=
  (s.temp, { s with temp := s.temp + 1, reg_num := max s.reg_num (s.temp + 1) })

/-- `NormalFuncInfo::pop`: decrement the temp cursor and return it; an
underflow is a Rust debug panic, modelled as `assertFail`. -/
def GenState.pop (s : GenState) : Except MonorubyErr (Nat × GenState) :=
  match s.temp with
  | 0 => .error .assertFail
  | t + 1 => .ok (t, { s with temp := t })

/-- `NormalFuncInfo::load_local`: slot of an already-declared local, or
`UndefinedLocal`. -/
def GenState.load_local (s : GenState) (ident : Nat) : Except MonorubyErr Nat :=
  match s.locals.findIdx? (fun x => x = ident) with
  | some i => .ok i
  | none => .error (.UndefinedLocal ident)

/-- `NormalFuncInfo::add_local`: append a new local slot. -/
def GenState.add_local (s : GenState) (ident : Nat) : Nat × GenState :=
  (s.locals.length, { s with locals := s.locals ++ [ident] })

/-- `NormalFuncInfo::find_local`: slot of a local, declaring it on first
sight. -/
def GenState.find_local (s : GenState) (ident : Nat) : Nat × GenState :=
  match s.locals.findIdx? (fun x => x = ident) with
  | some i => (i, s)
  | none => s.add_local ident

/-- The destination register of a value-producing opcode: the supplied
local when the caller gave one, a fresh temp otherwise.  This is the
`match dst { Some(local) => local.into(), None => self.push().into() }`
pattern shared by the `gen_*` helpers. -/
def GenState.dest_reg (s : GenState) (dst : Option Nat) : BcReg × GenState :=
  match dst with
  | some l => (.Local l, s)
  | none =>
      let (t, s') := s.push
      (.Temp t, s')

/-- Rust `i32::try_from` on an `i64` succeeding. -/
def fits_i32 (i : Int) : Prop := -(2 ^ 31) ≤ i ∧ i < 2 ^ 31

instance : DecidablePred fits_i32 := fun i => by unfold fits_i32; infer_instance

/-- `NormalFuncInfo::new_constant`. -/
def GenState.new_constant (s : GenState) (v : BcValue) : Nat × GenState :=
  (s.literals.length, { s with literals := s.literals ++ [v] })

/-- `NormalFuncInfo::gen_const`. -/
def gen_const (s : GenState) (c : IrContext) (dst : Option Nat) (v : BcValue) :
    GenState × IrContext :=
  let (reg, s) := s.dest_reg dst
  let (id, s) := s.new_constant v
  (s, c.pushI (.Const reg id))

/-- `NormalFuncInfo::gen_integer`: a short `Integer` opcode when the
literal fits in i32, a constant-pool fixnum otherwise. -/
def gen_integer (s : GenState) (c : IrContext) (dst : Option Nat) (i : Int) :
    GenState × IrContext :=
  if fits_i32 i then
    let (reg, s) := s.dest_reg dst
    (s, c.pushI (.Integer reg i))
  else gen_const s c dst (.fixnum i)

/-- `NormalFuncInfo::gen_float`. -/
def gen_float (s : GenState) (c : IrContext) (dst : Option Nat) (f : Int) :
    GenState × IrContext :=
  gen_const s c dst (.float f)

/-- `NormalFuncInfo::gen_nil`. -/
def gen_nil (s : GenState) (c : IrContext) (dst : Option Nat) :
    GenState × IrContext :=
  let (reg, s) := s.dest_reg dst
  (s, c.pushI (.Nil reg))

/-- `NormalFuncInfo::gen_neg`: negate a local in place, or pop the source
temp and push the result temp. -/
def gen_neg (s : GenState) (c : IrContext) (dst : Option Nat) :
    Except MonorubyErr (GenState × IrContext) :=
  match dst with
  | some l => .ok (s, c.pushI (.Neg (.Local l) (.Local l)))
  | none => do
      let (src, s) ← s.pop
      let (d, s) := s.push
      .ok (s, c.pushI (.Neg (.Temp d) (.Temp src)))

/-- `NormalFuncInfo::gen_ret`: return a local directly or pop the single
remaining temp; the source then asserts the temp cursor is zero. -/
def gen_ret (s : GenState) (c : IrContext) (dst : Option Nat) :
    Except MonorubyErr (GenState × IrContext) := do
  let (reg, s) ←
    match dst with
    | some l => pure (BcReg.Local l, s)
    | none => do
        let (t, s) ← s.pop
        pure (BcReg.Temp t, s)
  if s.temp = 0 then .ok (s, c.pushI (.Ret reg)) else .error .assertFail

/-- `NormalFuncInfo::gen_mov`. -/
def gen_mov (c : IrContext) (dst src : BcReg) : IrContext :=
  c.pushI (.Mov dst src)

/-- `NormalFuncInfo::gen_temp_mov`: push a temp and move into it. -/
def gen_temp_mov (s : GenState) (c : IrContext) (src : BcReg) :
    GenState × IrContext :=
  let (t, s) := s.push
  (s, gen_mov c (.Temp t) src)

/-- Rust `i as i16 as i64`: truncate to 16 bits, two's complement. -/
def as_i16 (i : Int) : Int :=
  (i + 2 ^ 15) % 2 ^ 16 - 2 ^ 15

/-- `is_smi` (bytecodegen.rs lines 469-476): an integer literal node
surviving the i16 round trip. -/
def is_smi (node : Node) : Option Int :=
  match node with
  | .integer i => if i = as_i16 i then some i else none
  | _ => none

/-- `is_local` (bytecodegen.rs lines 478-484). -/
def is_local (node : Node) : Option Nat :=
  match node with
  | .localVar id => some id
  | _ => none

/-- The literal-like node kinds that `gen_expr` skips entirely when the
value is unused (the early `if !use_value` match). -/
def Node.isSimpleLit : Node → Bool
  | .nil | .bool _ | .selfValue | .integer _ | .float _ => true
  | _ => false

/-- The common tail of the fall-through arms of `gen_expr`: pop the value
when it is unused. -/
def gen_expr_tail (use_value : Bool) (r : GenState × IrContext) :
    Except MonorubyErr (GenState × IrContext) :=
  if use_value then .ok r
  else do
    let (_, s) ← r.1.pop
    .ok (s, r.2)

/-- The common tail of the fall-through arms of `gen_store_expr`: when
the value is consumed, move the stored local onto a fresh temp. -/
def gen_store_tail (use_value : Bool) (l : Nat) (r : GenState × IrContext) :
    Except MonorubyErr (GenState × IrContext) :=
  if use_value then .ok (gen_temp_mov r.1 r.2 (.Local l)) else .ok r


mutual

/-- `NormalFuncInfo::gen_expr` (bytecodegen.rs lines 534-724) on the
covered node kinds, fuelled.  `use_value` tells whether the expression's
value is consumed; fall-through arms pop it when unused. -/
def gen_expr (fuel : Nat) (s : GenState) (c : IrContext) (e : Node)
    (use_value : Bool) : Except MonorubyErr (GenState × IrContext) :=
  match fuel with
  | 0 => .error .fuelExhausted
  | fuel + 1 =>
    if use_value = false ∧ e.isSimpleLit then .ok (s, c) else
    match e with
    | .nil => gen_expr_tail use_value (gen_nil s c none)
    | .bool b => gen_expr_tail use_value (gen_const s c none (.bool b))
    | .selfValue => gen_expr_tail use_value (gen_temp_mov s c .Self_)
    | .integer i => gen_expr_tail use_value (gen_integer s c none i)
    | .float f => gen_expr_tail use_value (gen_float s c none f)
    | .neg rhs =>
        match rhs with
        | .integer i => gen_expr_tail use_value (gen_integer s c none (-i))
        | .float f => gen_expr_tail use_value (gen_float s c none (-f))
        | _ => do
            let (s, c) ← gen_expr fuel s c rhs true
            let r ← gen_neg s c none
            gen_expr_tail use_value r
    | .binOp op lhs rhs => do
        let r ←
          match op with
          | .add => gen_add fuel s c none lhs rhs
          | .sub => gen_sub fuel s c none lhs rhs
          | .mul => gen_mul fuel s c none lhs rhs
          | .div => gen_div fuel s c none lhs rhs
          | .cmp k => gen_cmp fuel s c none k lhs rhs
          | .other => .error .Unimplemented
        gen_expr_tail use_value r
    | .localVar ident => do
        let i ← s.load_local ident
        gen_expr_tail use_value (gen_temp_mov s c (.Local i))
    | .if_ cond then_ else_ => do
        let (then_pos, c) := c.new_label
        let (succ_pos, c) := c.new_label
        let (t, s, c) ← gen_temp_expr fuel s c cond
        let c := c.pushI (.CondBr (.Temp t) then_pos)
        let (s, c) ← gen_expr fuel s c else_ use_value
        let c := c.pushI (.Br succ_pos)
        let s ← if use_value then do let (_, s) ← s.pop; pure s else pure s
        let c := c.apply_label then_pos
        let (s, c) ← gen_expr fuel s c then_ use_value
        .ok (s, c.apply_label succ_pos)
    | .while_ cond_op cond body => do
        if cond_op then
          let (s, c) ← gen_while fuel s c cond body
          if use_value then .ok (gen_nil s c none) else .ok (s, c)
        else .error .assertFail
    | .ret e' => do
        match is_local e' with
        | some ident => do
            let i ← s.load_local ident
            gen_ret s c (some i)
        | none => do
            let (s, c) ← gen_expr fuel s c e' true
            gen_ret s c none
    | .compStmt nodes => gen_comp_stmts fuel s c nodes none use_value

/-- `NormalFuncInfo::gen_store_expr` (bytecodegen.rs lines 752-858) on
the covered node kinds: evaluate `rhs` directly into a local slot. -/
def gen_store_expr (fuel : Nat) (s : GenState) (c : IrContext) (l : Nat)
    (rhs : Node) (use_value : Bool) : Except MonorubyErr (GenState × IrContext) :=
  match fuel with
  | 0 => .error .fuelExhausted
  | fuel + 1 =>
    match rhs with
    | .nil => gen_store_tail use_value l (gen_nil s c (some l))
    | .bool b => gen_store_tail use_value l (gen_const s c (some l) (.bool b))
    | .selfValue => gen_store_tail use_value l (s, gen_mov c (.Local l) .Self_)
    | .integer i => gen_store_tail use_value l (gen_integer s c (some l) i)
    | .float f => gen_store_tail use_value l (gen_float s c (some l) f)
    | .neg rhs' =>
        match rhs' with
        | .integer i => gen_store_tail use_value l (gen_integer s c (some l) (-i))
        | .float f => gen_store_tail use_value l (gen_float s c (some l) (-f))
        | _ => do
            let (s, c) ← gen_store_expr fuel s c l rhs' false
            let r ← gen_neg s c (some l)
            gen_store_tail use_value l r
    | .binOp op lhs rhs' => do
        let r ←
          match op with
          | .add => gen_add fuel s c (some l) lhs rhs'
          | .sub => gen_sub fuel s c (some l) lhs rhs'
          | .mul => gen_mul fuel s c (some l) lhs rhs'
          | .div => gen_div fuel s c (some l) lhs rhs'
          | .cmp k => gen_cmp fuel s c (some l) k lhs rhs'
          | .other => .error .Unimplemented
        gen_store_tail use_value l r
    | .localVar ident => do
        let i ← s.load_local ident
        gen_store_tail use_value l (s, gen_mov c (.Local l) (.Local i))
    | .ret _ => .error .unreachableHit
    | .compStmt nodes => gen_comp_stmts fuel s c nodes (some l) use_value
    | _ => do
        let t := s.next_reg
        let (s, c) ← gen_expr fuel s c rhs true
        let c := gen_mov c (.Local l) (.Temp t)
        if use_value then .ok (s, c)
        else do
          let (_, s) ← s.pop
          .ok (s, c)

/-- `NormalFuncInfo::gen_comp_stmts` (bytecodegen.rs lines 497-521): all
statements but the last for effect, then the last into the optional
destination; an empty list behaves as a single `nil`. -/
def gen_comp_stmts (fuel : Nat) (s : GenState) (c : IrContext)
    (nodes : List Node) (ret : Option Nat) (use_value : Bool) :
    Except MonorubyErr (GenState × IrContext) :=
  match fuel with
  | 0 => .error .fuelExhausted
  | fuel + 1 => do
    let last := (nodes.getLast?).getD .nil
    let (s, c) ← gen_stmts_list fuel s c nodes.dropLast
    match ret with
    | some l => gen_store_expr fuel s c l last use_value
    | none => gen_expr fuel s c last use_value

/-- The `for node in nodes` loop inside `gen_comp_stmts`: each statement
generated for effect. -/
def gen_stmts_list (fuel : Nat) (s : GenState) (c : IrContext) :
    List Node → Except MonorubyErr (GenState × IrContext)
  | [] =>
      match fuel with
      | 0 => .error .fuelExhausted
      | _ + 1 => .ok (s, c)
  | n :: rest =>
      match fuel with
      | 0 => .error .fuelExhausted
      | fuel + 1 => do
          let (s, c) ← gen_expr fuel s c n false
          gen_stmts_list fuel s c rest

/-- `NormalFuncInfo::gen_temp_expr`: evaluate for value and pop the
resulting temp. -/
def gen_temp_expr (fuel : Nat) (s : GenState) (c : IrContext) (e : Node) :
    Except MonorubyErr (Nat × GenState × IrContext) :=
  match fuel with
  | 0 => .error .fuelExhausted
  | fuel + 1 => do
      let (s, c) ← gen_expr fuel s c e true
      let (t, s) ← s.pop
      .ok (t, s, c)

/-- `NormalFuncInfo::gen_singular` (bytecodegen.rs lines 937-953): the
left operand as a local or a popped temp, then the destination. -/
def gen_singular (fuel : Nat) (s : GenState) (c : IrContext)
    (dst : Option Nat) (lhs : Node) :
    Except MonorubyErr (BcReg × BcReg × GenState × IrContext) :=
  match fuel with
  | 0 => .error .fuelExhausted
  | fuel + 1 => do
      let (lhsR, s, c) ←
        match is_local lhs with
        | some ident =>
            let (i, s) := s.find_local ident
            pure (BcReg.Local i, s, c)
        | none => do
            let (t, s, c) ← gen_temp_expr fuel s c lhs
            pure (BcReg.Temp t, s, c)
      let (dstR, s) := s.dest_reg dst
      .ok (dstR, lhsR, s, c)

/-- `NormalFuncInfo::gen_binary` (bytecodegen.rs lines 898-935): both
operands as locals or temps, then the destination. -/
def gen_binary (fuel : Nat) (s : GenState) (c : IrContext)
    (dst : Option Nat) (lhs rhs : Node) :
    Except MonorubyErr (BcReg × BcReg × BcReg × GenState × IrContext) :=
  match fuel with
  | 0 => .error .fuelExhausted
  | fuel + 1 => do
      let (lhsR, rhsR, s, c) ←
        match is_local lhs, is_local rhs with
        | some li, some ri =>
            let (l, s) := s.find_local li
            let (r, s) := s.find_local ri
            pure (BcReg.Local l, BcReg.Local r, s, c)
        | some li, none => do
            let (l, s) := s.find_local li
            let (r, s, c) ← gen_temp_expr fuel s c rhs
            pure (BcReg.Local l, BcReg.Temp r, s, c)
        | none, some ri => do
            let (l, s, c) ← gen_temp_expr fuel s c lhs
            let (r, s) := s.find_local ri
            pure (BcReg.Temp l, BcReg.Local r, s, c)
        | none, none => do
            let (s, c) ← gen_expr fuel s c lhs true
            let (s, c) ← gen_expr fuel s c rhs true
            let (r, s) ← s.pop
            let (l, s) ← s.pop
            pure (BcReg.Temp l, BcReg.Temp r, s, c)
      let (dstR, s) := s.dest_reg dst
      .ok (dstR, lhsR, rhsR, s, c)

/-- `NormalFuncInfo::gen_add` (bytecodegen.rs lines 955-971): the
short-immediate `Addri` when the right side is an i16 literal, the
three-register `Add` otherwise. -/
def gen_add (fuel : Nat) (s : GenState) (c : IrContext) (dst : Option Nat)
    (lhs rhs : Node) : Except MonorubyErr (GenState × IrContext) :=
  match fuel with
  | 0 => .error .fuelExhausted
  | fuel + 1 =>
      match is_smi rhs with
      | some i => do
          let (d, l, s, c) ← gen_singular fuel s c dst lhs
          .ok (s, c.pushI (.Addri d l i))
      | none => do
          let (d, l, r, s, c) ← gen_binary fuel s c dst lhs rhs
          .ok (s, c.pushI (.Add d l r))

/-- `NormalFuncInfo::gen_sub` (bytecodegen.rs lines 973-989). -/
def gen_sub (fuel : Nat) (s : GenState) (c : IrContext) (dst : Option Nat)
    (lhs rhs : Node) : Except MonorubyErr (GenState × IrContext) :=
  match fuel with
  | 0 => .error .fuelExhausted
  | fuel + 1 =>
      match is_smi rhs with
      | some i => do
          let (d, l, s, c) ← gen_singular fuel s c dst lhs
          .ok (s, c.pushI (.Subri d l i))
      | none => do
          let (d, l, r, s, c) ← gen_binary fuel s c dst lhs rhs
          .ok (s, c.pushI (.Sub d l r))

/-- `NormalFuncInfo::gen_mul` (bytecodegen.rs lines 991-1002). -/
def gen_mul (fuel : Nat) (s : GenState) (c : IrContext) (dst : Option Nat)
    (lhs rhs : Node) : Except MonorubyErr (GenState × IrContext) :=
  match fuel with
  | 0 => .error .fuelExhausted
  | fuel + 1 => do
      let (d, l, r, s, c) ← gen_binary fuel s c dst lhs rhs
      .ok (s, c.pushI (.Mul d l r))

/-- `NormalFuncInfo::gen_div` (bytecodegen.rs lines 1004-1015). -/
def gen_div (fuel : Nat) (s : GenState) (c : IrContext) (dst : Option Nat)
    (lhs rhs : Node) : Except MonorubyErr (GenState × IrContext) :=
  match fuel with
  | 0 => .error .fuelExhausted
  | fuel + 1 => do
      let (d, l, r, s, c) ← gen_binary fuel s c dst lhs rhs
      .ok (s, c.pushI (.Div d l r))

/-- `NormalFuncInfo::gen_cmp` (bytecodegen.rs lines 1017-1034). -/
def gen_cmp (fuel : Nat) (s : GenState) (c : IrContext) (dst : Option Nat)
    (kind : CmpKind) (lhs rhs : Node) : Except MonorubyErr (GenState × IrContext) :=
  match fuel with
  | 0 => .error .fuelExhausted
  | fuel + 1 =>
      match is_smi rhs with
      | some i => do
          let (d, l, s, c) ← gen_singular fuel s c dst lhs
          .ok (s, c.pushI (.Cmpri kind d l i))
      | none => do
          let (d, l, r, s, c) ← gen_binary fuel s c dst lhs rhs
          .ok (s, c.pushI (.Cmp kind d l r))

/-- `NormalFuncInfo::gen_while` (bytecodegen.rs lines 1036-1053): bind
COND, evaluate the condition, conditional-not-branch to END, emit the
body for effect, branch back to COND, bind END. -/
def gen_while (fuel : Nat) (s : GenState) (c : IrContext) (cond body : Node) :
    Except MonorubyErr (GenState × IrContext) :=
  match fuel with
  | 0 => .error .fuelExhausted
  | fuel + 1 => do
      let (cond_pos, c) := c.new_label
      let (succ_pos, c) := c.new_label
      let c := c.apply_label cond_pos
      let (t, s, c) ← gen_temp_expr fuel s c cond
      let c := c.pushI (.CondNotBr (.Temp t) succ_pos)
      let (s, c) ← gen_expr fuel s c body false
      let c := c.pushI (.Br cond_pos)
      .ok (s, c.apply_label succ_pos)

end

/-- `NormalFuncInfo::get_index` (bytecodegen.rs lines 1057-1063): resolve
a bytecode register to its flat slot index. -/
def GenState.get_index (s : GenState) (reg : BcReg) : Nat :=
  match reg with
  | .Self_ => 0
  | .Temp i => 1 + s.locals.length + i
  | .Local i => 1 + i

/-- `NormalFuncInfo::total_reg_num` (bytecodegen.rs lines 246-248). -/
def GenState.total_reg_num (s : GenState) : Nat :=
  1 + s.locals.length + s.reg_num

/-! ## HIR evaluator conditional branch (src/eval.rs, `Hir::CondBr` arm) -/

/-- `Value` of the HIR evaluator revision (its value.rs is likewise not
among the sources; variants reconstructed from their uses in eval.rs and
codegen.rs).  Structural equality coincides with the derived Rust
`PartialEq` as far as comparisons against `Bool(false)` go. -/
inductive EvalValue where
  | Integer : Int → EvalValue
  | Float : Nat → EvalValue
  | Bool : Bool → EvalValue
  | Nil : EvalValue
deriving DecidableEq, Repr

/-- The `Hir::CondBr(cond, then_, else_)` arm of `Evaluator::eval`
(eval.rs lines 238-245): control goes to `else_` exactly when the
condition register holds `Value::Bool(false)`, otherwise to `then_`. -/
def cond_br_next (cond : EvalValue) (then_ else_ : Nat) : Nat :=
  if cond = .Bool false then else_ else then_

/-! ## Auxiliary relations used by the theorems -/

/-- Frame relation on `IrContext`: the second context extends the first
one — instructions were only appended, the label table only grew, and
labels that already existed kept their bindings.  Every generator
function preserves this, since `apply_label` is only ever used on labels
the same construct allocated. -/
def FrameIr (a b : IrContext) : Prop :=
  (∃ d, b.ir = a.ir ++ d) ∧ a.labels.length ≤ b.labels.length ∧
    ∀ i, i < a.labels.length → b.labels[i]? = a.labels[i]?

/-! ## Theorems -/

/-- C1, counterexample: the code maps general virtual register 4 to the
physical register R12 (number 12) — it is not spilled, and R12 is outside
R8..R11; likewise float register 14 maps to XMM15.  Hence the claimed
mapping (R8..R11 for 0..4, spill from 4 on; XMM1..XMM15 for 0..14, spill
from 14 on) is false at index 4 and at index 14. -/
theorem C1_counterexample :
    g_phys_reg 0 4 = .Reg 12 ∧ (∀ ofs, g_phys_reg 0 4 ≠ .Stack ofs) ∧
    f_phys_reg 0 14 = .Xmm 15 ∧ (∀ ofs, f_phys_reg 0 14 ≠ .Stack ofs) ∧
    ¬ claimC1 := by
  refine ⟨by decide, fun ofs => by simp [g_phys_reg], by decide,
    fun ofs => by simp [f_phys_reg], fun h => ?_⟩
  obtain ⟨ofs, hofs⟩ := (h 0 4).2.1 (le_refl 4)
  simp [g_phys_reg] at hofs

/-- C1, amended: the code generator maps general virtual registers 0..=4
to R8..R12 and spills every index ≥ 5 to the stack slot at byte offset
`(idx - 4 + g_offset) * 8 + 8` from rbp; it maps float virtual registers
0..=14 to XMM1..XMM15 and spills every index ≥ 15 at
`(idx - 14 + f_offset) * 8 + 8`. -/
theorem C1_phys_reg_mapping (off idx : Nat) :
    (idx < 5 → g_phys_reg off idx = .Reg (idx + 8)) ∧
    (5 ≤ idx → g_phys_reg off idx = .Stack ((idx - 4 + off) * 8 + 8)) ∧
    (idx < 15 → f_phys_reg off idx = .Xmm (idx + 1)) ∧
    (15 ≤ idx → f_phys_reg off idx = .Stack ((idx - 14 + off) * 8 + 8)) := by
  refine ⟨fun h => ?_, fun h => ?_, fun h => ?_, fun h => ?_⟩
  · simp [g_phys_reg, h]
  · simp [g_phys_reg, Nat.not_lt.2 h]
  · simp [f_phys_reg, h]
  · simp [f_phys_reg, Nat.not_lt.2 h]

/-- Witness for `C1_phys_reg_mapping` at concrete indices on both sides
of both boundaries. -/
theorem C1_phys_reg_mapping_witness :
    g_phys_reg 3 4 = .Reg 12 ∧ g_phys_reg 3 7 = .Stack 56 ∧
    f_phys_reg 2 14 = .Xmm 15 ∧ f_phys_reg 2 20 = .Stack 72 :=
  ⟨(C1_phys_reg_mapping 3 4).1 (by decide),
   (C1_phys_reg_mapping 3 7).2.1 (by decide),
   (C1_phys_reg_mapping 2 14).2.2.1 (by decide),
   (C1_phys_reg_mapping 2 20).2.2.2 (by decide)⟩

/-- C3: a compiled function with `L` local slots, `g` general and `f`
float virtual registers reserves exactly `8 · (L + max(0,g-4) +
max(0,f-14))` bytes of stack (the truncated `Nat` subtractions below are
those maxima), padded up by 8 when the slot count is odd, and the
reservation is always a multiple of 16, keeping rsp 16-byte aligned. -/
theorem C3_frame_reserve (L g f : Nat) :
    g_spill g = g - 4 ∧ f_spill f = f - 14 ∧
    frame_reserve L g f =
      8 * (L + (g - 4) + (f - 14)) +
        (if (L + (g - 4) + (f - 14)) % 2 = 1 then 8 else 0) ∧
    frame_reserve L g f % 16 = 0 := by
  unfold frame_reserve prologue_reserve g_spill f_spill
  split_ifs <;> omega

/-- C4, counterexample: the Rust shift amount is `rhs as u64 as u32`, so
`rhs = 2^32` shifts by 0 and `shl_values`/`shr_values` return the
left-hand side unchanged instead of 0, refuting the claim that every
`rhs ≥ 64` saturates to 0. -/
theorem C4_counterexample :
    shl_values (.integer 1) (.integer (2 ^ 32)) = some (.integer 1) ∧
    shr_values (.integer 2) (.integer (2 ^ 32)) = some (.integer 2) ∧
    (64 : Int) ≤ 2 ^ 32 ∧ ¬ claimC4 := by
  refine ⟨by decide, by decide, by decide, fun h => ?_⟩
  have h1 := (h 1 (2 ^ 32) (by decide)).1
  rw [show shl_values (.integer 1) (.integer (2 ^ 32)) = some (.integer 1) from by decide] at h1
  exact absurd h1 (by decide)

/-- C4, amended: the shift primitives use `rhs` truncated to 32 bits as
the shift amount; whenever that truncated amount is at least 64 — in
particular for every `64 ≤ rhs < 2^32` — both `shl_values` and
`shr_values` return integer 0. -/
theorem C4_shift_saturates (l r : Int) (h0 : 0 ≤ r) (h64 : 64 ≤ as_u32 r) :
    shl_values (.integer l) (.integer r) = some (.integer 0) ∧
    shr_values (.integer l) (.integer r) = some (.integer 0) := by
  have hn : ¬ as_u32 r < 64 := by omega
  constructor <;>
    simp [shl_values, shr_values, checked_shl, checked_shr, h0, hn]

/-- Witness for `C4_shift_saturates` at `lhs = 157`, `rhs = 64`. -/
theorem C4_shift_saturates_witness :
    shl_values (.integer 157) (.integer 64) = some (.integer 0) ∧
    shr_values (.integer 157) (.integer 64) = some (.integer 0) :=
  C4_shift_saturates 157 64 (by decide) (by decide)

/-- C6: bytecode slot layout — slot 0 is self, local `k` (for `k` below
the local count) resolves to slot `1 + k`, temporary `t` to slot
`1 + locals + t`, and the register file size is `1 + locals + temps`. -/
theorem C6_slot_layout (s : GenState) (k t : Nat) :
    s.get_index .Self_ = 0 ∧
    (k < s.locals.length → s.get_index (.Local k) = 1 + k) ∧
    s.get_index (.Temp t) = 1 + s.locals.length + t ∧
    s.total_reg_num = 1 + s.locals.length + s.reg_num :=
  ⟨rfl, fun _ => rfl, rfl, rfl⟩

/-- Witness for `C6_slot_layout` on a function with two locals and three
temps. -/
theorem C6_slot_layout_witness :
    (GenState.mk [10, 11] 0 3 []).get_index (.Local 1) = 2 ∧
    (GenState.mk [10, 11] 0 3 []).get_index (.Temp 0) = 3 ∧
    (GenState.mk [10, 11] 0 3 []).total_reg_num = 6 :=
  ⟨(C6_slot_layout (GenState.mk [10, 11] 0 3 []) 1 0).2.1 (by decide),
   (C6_slot_layout (GenState.mk [10, 11] 0 3 []) 1 0).2.2.1,
   (C6_slot_layout (GenState.mk [10, 11] 0 3 []) 1 0).2.2.2⟩

/-- C10: the HIR evaluator's conditional branch goes to the else block
exactly when the condition register holds `Bool(false)`; any other value,
including `Nil`, goes to the then block. -/
theorem C10_cond_br (v : EvalValue) (t e : Nat) :
    (v = .Bool false → cond_br_next v t e = e) ∧
    (v ≠ .Bool false → cond_br_next v t e = t) ∧
    cond_br_next .Nil t e = t := by
  refine ⟨fun h => ?_, fun h => ?_, ?_⟩ <;> simp [cond_br_next, *]

/-- Witness for `C10_cond_br`: `Bool(false)` takes the else block,
`Nil` takes the then block. -/
theorem C10_cond_br_witness :
    cond_br_next (.Bool false) 1 2 = 2 ∧ cond_br_next .Nil 1 2 = 1 :=
  ⟨(C10_cond_br (.Bool false) 1 2).1 rfl,
   (C10_cond_br .Nil 1 2).2.1 (by decide)⟩

/-- C2, counterexample: a MIR function declared to return Integer whose
body ends in a float return hits the `panic!` in `compile_bb`; the panic
is not caught anywhere (`jit_compile` only handles the `Result` errors of
`new_func_from_ast`), so the first call aborts the process instead of
marking the function `Fail`. -/
theorem C2_counterexample :
    eval_first_call (.ok ⟨.Integer, [.FRet]⟩) = .processAborted ∧
    ret_type_check .Integer .FRet = .panicked ∧
    ¬ claimC2 := by
  refine ⟨by decide, by decide, fun h => ?_⟩
  have h1 := h ⟨.Integer, [.FRet]⟩ ⟨.FRet, by decide, by decide⟩
  exact absurd h1 (by decide)

/-- C2, amended: when any emitted return instruction mismatches the
declared return type, the first call ends in an uncaught panic that
terminates the whole process; the function is never marked `Fail` (that
state is recorded only when HIR→MIR construction fails). -/
theorem C2_mismatch_panics (f : McFunc)
    (h : ∃ r ∈ f.rets, ret_type_check f.ret_ty r = .panicked) :
    eval_first_call (.ok f) = .processAborted := by
  obtain ⟨r, hr, hp⟩ := h
  simp only [eval_first_call, if_pos, List.any_eq_true, decide_eq_true_eq]
  rw [if_pos ⟨r, hr, hp⟩]

/-- Witness for `C2_mismatch_panics` on the Integer-declared function
with a float return. -/
theorem C2_mismatch_panics_witness :
    eval_first_call (.ok ⟨.Integer, [.IRet .Integer, .FRet]⟩) = .processAborted :=
  C2_mismatch_panics ⟨.Integer, [.IRet .Integer, .FRet]⟩
    ⟨.FRet, by decide, by decide⟩

/-- One step of the driver never disturbs a recorded `Fail`: if the cache
holds `Fail` for `f`, dispatching any call leaves that entry intact, and
a call targeting `f` itself makes no compilation attempt and runs the
interpreter. -/
theorem eval_dispatch_fail_sticky (cache : Nat → Option JitState)
    (compile : Option (Nat × Ty)) (g f : Nat) (hf : cache f = some .Fail) :
    (eval_dispatch cache compile g).2.2 f = some .Fail ∧
    (g = f → (eval_dispatch cache compile g).1 = .interpret ∧
      (eval_dispatch cache compile g).2.1 = false) := by
  unfold eval_dispatch
  rcases hg : cache g with - | st
  · have hne : ¬ f = g := fun h => by rw [h, hg] at hf; cases hf
    have hne' : ¬ g = f := fun h => hne h.symm
    rcases compile with - | ⟨dest, ty⟩
    · exact ⟨by simp [hne, hf], fun h => absurd h hne'⟩
    · exact ⟨by simp [hne, hf], fun h => absurd h hne'⟩
  · rcases st with - | ⟨dest, ty⟩
    · exact ⟨hf, fun _ => ⟨rfl, rfl⟩⟩
    · have hne' : ¬ g = f := fun h => by rw [h, hf] at hg; cases hg
      exact ⟨hf, fun h => absurd h hne'⟩

/-- C7: once `Fail` is recorded for a function id, the driver never
attempts JIT compilation of it again — for every subsequent sequence of
invocations (with arbitrary compilation oracles), every call targeting
that id makes no compilation attempt and runs through the interpreter,
and the cache entry stays `Fail`. -/
theorem C7_fail_never_retried (cache : Nat → Option JitState) (f : Nat)
    (hf : cache f = some .Fail) (calls : List (Nat × Option (Nat × Ty))) :
    (∀ obs ∈ (run_calls cache calls).1, obs.1 = f →
        obs.2.1 = .interpret ∧ obs.2.2 = false) ∧
    (run_calls cache calls).2 f = some .Fail := by
  induction calls generalizing cache with
  | nil => exact ⟨fun obs hobs => by simp [run_calls] at hobs, hf⟩
  | cons head rest ih =>
      obtain ⟨g, compile⟩ := head
      have hstep := eval_dispatch_fail_sticky cache compile g f hf
      have ihr := ih (eval_dispatch cache compile g).2.2 hstep.1
      refine ⟨fun obs hobs hobsf => ?_, ?_⟩
      · simp only [run_calls, List.mem_cons] at hobs
        rcases hobs with hobs | hobs
        · subst hobs
          exact hstep.2 hobsf
        · exact ihr.1 obs hobs hobsf
      · simpa [run_calls] using ihr.2

/-- Witness for `C7_fail_never_retried`: a cache with `Fail` recorded for
function 1, run through calls to 1 (with a would-succeed oracle), to 0,
and to 1 again. -/
theorem C7_fail_never_retried_witness :
    (∀ obs ∈ (run_calls (fun g => if g = 1 then some .Fail else none)
        [(1, some (7, .Integer)), (0, none), (1, none)]).1,
      obs.1 = 1 → obs.2.1 = .interpret ∧ obs.2.2 = false) ∧
    (run_calls (fun g => if g = 1 then some .Fail else none)
        [(1, some (7, .Integer)), (0, none), (1, none)]).2 1 = some .Fail :=
  C7_fail_never_retried (fun g => if g = 1 then some .Fail else none) 1 rfl
    [(1, some (7, .Integer)), (0, none), (1, none)]

/-- `new_freg` runs the identical scan as `new_greg`. -/
theorem new_freg_eq_new_greg (pool : List (Option Nat)) (ssa : Nat) :
    new_freg pool ssa = new_greg pool ssa := by
  induction pool with
  | nil => rfl
  | cons head rest ih =>
      rcases head with - | x
      · rfl
      · simp only [new_freg, new_greg, ih]

/-- Specification of the vacancy scan `new_greg`: the returned index is
the lowest vacant slot when one exists (and the pool is updated in
place), and when every slot is occupied the pool is extended with a new
highest-index slot. -/
theorem new_greg_spec (pool : List (Option Nat)) (ssa : Nat) :
    ((new_greg pool ssa).1 < pool.length →
        pool[(new_greg pool ssa).1]? = some none ∧
        (∀ j < (new_greg pool ssa).1, pool[j]? ≠ some none) ∧
        (new_greg pool ssa).2 = pool.set (new_greg pool ssa).1 (some ssa)) ∧
    ((∀ j < pool.length, pool[j]? ≠ some none) →
        (new_greg pool ssa).1 = pool.length ∧
        (new_greg pool ssa).2 = pool ++ [some ssa]) ∧
    ((∃ j, j < pool.length ∧ pool[j]? = some none) →
        (new_greg pool ssa).1 < pool.length) := by
  induction pool with
  | nil =>
      refine ⟨fun h => absurd h (by simp [new_greg]), fun _ => ⟨rfl, rfl⟩, ?_⟩
      rintro ⟨j, hj, -⟩
      exact absurd hj (by simp)
  | cons head rest ih =>
      rcases head with - | x
      · have h0 : new_greg (none :: rest) ssa = (0, some ssa :: rest) := rfl
        rw [h0]
        refine ⟨fun _ => ⟨by simp, fun j hj => absurd hj (by omega), by simp⟩,
          fun hocc => absurd ?_ (hocc 0 (by simp)), fun _ => by simp⟩
        simp
      · rcases he : new_greg rest ssa with ⟨i, r⟩
        have hstep : new_greg (some x :: rest) ssa = (i + 1, some x :: r) := by
          simp only [new_greg, he]
        obtain ⟨ih1, ih2, ih3⟩ := ih
        rw [he] at ih1 ih2 ih3
        dsimp only at ih1 ih2 ih3
        rw [hstep]
        dsimp only
        refine ⟨fun hlt => ?_, fun hocc => ?_, ?_⟩
        · simp only [List.length_cons, Nat.add_lt_add_iff_right] at hlt
          obtain ⟨hv, hlow, hset⟩ := ih1 hlt
          refine ⟨by simpa using hv, fun j hj => ?_, by simp [hset]⟩
          rcases j with - | j
          · simp
          · simp only [List.getElem?_cons_succ]
            exact hlow j (by omega)
        · have hrest : ∀ j < rest.length, rest[j]? ≠ some none := fun j hj => by
            have := hocc (j + 1) (by simpa using Nat.succ_lt_succ hj)
            simpa using this
          obtain ⟨hi, hr⟩ := ih2 hrest
          exact ⟨by simp [hi], by simp [hr]⟩
        · rintro ⟨j, hj, hv⟩
          rcases j with - | j
          · exact absurd hv (by simp)
          · have := ih3 ⟨j, by simpa using Nat.lt_of_succ_lt_succ hj, by simpa using hv⟩
            simpa using Nat.succ_lt_succ this

/-- C8: MIR virtual-register allocation returns the lowest-index register
of the class whose liveness binding is vacant, updating it in place, and
extends the class with a new highest-index register when every existing
one is live — for the general class (`new_greg`) and, being the identical
scan, for the float class (`new_freg`). -/
theorem C8_alloc_lowest_vacant (pool : List (Option Nat)) (ssa : Nat) :
    (((new_greg pool ssa).1 < pool.length →
        pool[(new_greg pool ssa).1]? = some none ∧
        (∀ j < (new_greg pool ssa).1, pool[j]? ≠ some none) ∧
        (new_greg pool ssa).2 = pool.set (new_greg pool ssa).1 (some ssa)) ∧
      ((∀ j < pool.length, pool[j]? ≠ some none) →
        (new_greg pool ssa).1 = pool.length ∧
        (new_greg pool ssa).2 = pool ++ [some ssa]) ∧
      ((∃ j, j < pool.length ∧ pool[j]? = some none) →
        (new_greg pool ssa).1 < pool.length)) ∧
    new_freg pool ssa = new_greg pool ssa :=
  ⟨new_greg_spec pool ssa, new_freg_eq_new_greg pool ssa⟩

/-- Witness for `C8_alloc_lowest_vacant`: a pool with a vacant middle
slot reuses it; a fully live pool is extended. -/
theorem C8_alloc_lowest_vacant_witness :
    ([some 1, none, some 2] :
        List (Option Nat))[(new_greg [some 1, none, some 2] 7).1]? = some none ∧
    (new_greg [some 1, some 2] 7).1 = ([some 1, some 2] : List (Option Nat)).length ∧
    (new_greg [some 1, some 2] 7).2 = [some 1, some 2] ++ [some 7] :=
  ⟨((C8_alloc_lowest_vacant [some 1, none, some 2] 7).1.1 (by decide)).1,
   ((C8_alloc_lowest_vacant [some 1, some 2] 7).1.2.1 (by decide)).1,
   ((C8_alloc_lowest_vacant [some 1, some 2] 7).1.2.1 (by decide)).2⟩

/-- Invert a successful `Except` bind. -/
theorem bind_eq_ok {α β : Type} {x : Except MonorubyErr α}
    {f : α → Except MonorubyErr β} {b : β} (h : (x >>= f) = .ok b) :
    ∃ a, x = .ok a ∧ f a = .ok b := by
  cases x with
  | error e => exact Except.noConfusion h
  | ok a => exact ⟨a, rfl, h⟩

/-- Reduce a bind on a successful `Except`. -/
theorem ok_bind {α β : Type} (a : α) (f : α → Except MonorubyErr β) :
    (Except.ok a >>= f) = f a := rfl

theorem frame_refl (a : IrContext) : FrameIr a a :=
  ⟨⟨[], by simp⟩, le_refl _, fun _ _ => rfl⟩

theorem frame_trans {a b c : IrContext} (h1 : FrameIr a b) (h2 : FrameIr b c) :
    FrameIr a c := by
  obtain ⟨⟨d1, hd1⟩, hl1, hp1⟩ := h1
  obtain ⟨⟨d2, hd2⟩, hl2, hp2⟩ := h2
  exact ⟨⟨d1 ++ d2, by simp [hd2, hd1]⟩, le_trans hl1 hl2,
    fun i hi => (hp2 i (lt_of_lt_of_le hi hl1)).trans (hp1 i hi)⟩

theorem frame_pushI {a b : IrContext} (h : FrameIr a b) (op : BcIr) :
    FrameIr a (b.pushI op) := by
  obtain ⟨⟨d, hd⟩, hl, hp⟩ := h
  exact ⟨⟨d ++ [op], by simp [IrContext.pushI, hd]⟩, hl, hp⟩

theorem frame_new_label {a b : IrContext} (h : FrameIr a b) :
    FrameIr a b.new_label.2 := by
  obtain ⟨⟨d, hd⟩, hl, hp⟩ := h
  refine ⟨⟨d, hd⟩, ?_, fun i hi => ?_⟩
  · simp only [IrContext.new_label, List.length_append, List.length_cons]
    omega
  · have hi' : i < b.labels.length := lt_of_lt_of_le hi hl
    simp only [IrContext.new_label]
    rw [List.getElem?_append_left hi']
    exact hp i hi

theorem frame_apply_label {a b : IrContext} (h : FrameIr a b) {l : Nat}
    (hl : a.labels.length ≤ l) : FrameIr a (b.apply_label l) := by
  obtain ⟨⟨d, hd⟩, hlen, hp⟩ := h
  refine ⟨⟨d, hd⟩, by simp only [IrContext.apply_label, List.length_set]; exact hlen,
    fun i hi => ?_⟩
  simp only [IrContext.apply_label]
  rw [List.getElem?_set_ne (by omega)]
  exact hp i hi

theorem frame_gen_const {a b : IrContext} (h : FrameIr a b) (s : GenState)
    (dst : Option Nat) (v : BcValue) : FrameIr a (gen_const s b dst v).2 := by
  rcases dst with - | l <;>
    exact frame_pushI h _

theorem frame_gen_integer {a b : IrContext} (h : FrameIr a b) (s : GenState)
    (dst : Option Nat) (i : Int) : FrameIr a (gen_integer s b dst i).2 := by
  unfold gen_integer
  split_ifs
  · rcases dst with - | l <;> exact frame_pushI h _
  · exact frame_gen_const h ..

theorem frame_gen_float {a b : IrContext} (h : FrameIr a b) (s : GenState)
    (dst : Option Nat) (f : Int) : FrameIr a (gen_float s b dst f).2 :=
  frame_gen_const h ..

theorem frame_gen_nil {a b : IrContext} (h : FrameIr a b) (s : GenState)
    (dst : Option Nat) : FrameIr a (gen_nil s b dst).2 := by
  rcases dst with - | l <;> exact frame_pushI h _

theorem frame_gen_temp_mov {a b : IrContext} (h : FrameIr a b) (s : GenState)
    (src : BcReg) : FrameIr a (gen_temp_mov s b src).2 :=
  frame_pushI h _

theorem frame_gen_neg {a b : IrContext} (h : FrameIr a b) {s : GenState}
    {dst : Option Nat} {r : GenState × IrContext}
    (hr : gen_neg s b dst = .ok r) : FrameIr a r.2 := by
  rcases dst with - | l
  · unfold gen_neg at hr
    rcases ht : s.temp with - | t
    · rw [GenState.pop, ht] at hr
      exact Except.noConfusion hr
    · rw [GenState.pop, ht] at hr
      simp only [Except.bind] at hr
      cases hr
      exact frame_pushI h _
  · cases hr
    exact frame_pushI h _

theorem frame_gen_ret {a b : IrContext} (h : FrameIr a b) {s : GenState}
    {dst : Option Nat} {r : GenState × IrContext}
    (hr : gen_ret s b dst = .ok r) : FrameIr a r.2 := by
  rcases dst with - | l
  · unfold gen_ret at hr
    rcases ht : s.temp with - | t
    · rw [GenState.pop, ht] at hr
      exact Except.noConfusion hr
    · rw [GenState.pop, ht] at hr
      simp only [ok_bind, pure, Except.pure] at hr
      split_ifs at hr
      cases hr
      exact frame_pushI h _
  · unfold gen_ret at hr
    simp only [ok_bind, pure, Except.pure] at hr
    split_ifs at hr
    cases hr
    exact frame_pushI h _

theorem gen_expr_tail_snd {uv : Bool} {r out : GenState × IrContext}
    (h : gen_expr_tail uv r = .ok out) : out.2 = r.2 := by
  unfold gen_expr_tail at h
  split_ifs at h
  · cases h; rfl
  · rcases ht : r.1.temp with - | t
    · rw [GenState.pop, ht] at h
      exact Except.noConfusion h
    · rw [GenState.pop, ht] at h
      simp only [Except.bind] at h
      cases h; rfl

theorem frame_gen_store_tail {a : IrContext} {uv : Bool} {l : Nat}
    {r out : GenState × IrContext} (h : FrameIr a r.2)
    (hr : gen_store_tail uv l r = .ok out) : FrameIr a out.2 := by
  unfold gen_store_tail at hr
  split_ifs at hr <;> cases hr
  · exact frame_pushI h _
  · exact h


set_option maxHeartbeats 1000000

/-- Every bytecode generator function only extends the IR context. -/
theorem gen_frame : ∀ fuel : Nat,
    (∀ s c e uv r, gen_expr fuel s c e uv = .ok r → FrameIr c r.2) ∧
    (∀ s c l e uv r, gen_store_expr fuel s c l e uv = .ok r → FrameIr c r.2) ∧
    (∀ s c ns ret uv r, gen_comp_stmts fuel s c ns ret uv = .ok r → FrameIr c r.2) ∧
    (∀ s c ns r, gen_stmts_list fuel s c ns = .ok r → FrameIr c r.2) ∧
    (∀ s c e r, gen_temp_expr fuel s c e = .ok r → FrameIr c r.2.2) ∧
    (∀ s c dst lhs r, gen_singular fuel s c dst lhs = .ok r → FrameIr c r.2.2.2) ∧
    (∀ s c dst lhs rhs r, gen_binary fuel s c dst lhs rhs = .ok r → FrameIr c r.2.2.2.2) ∧
    (∀ s c dst lhs rhs r, gen_add fuel s c dst lhs rhs = .ok r → FrameIr c r.2) ∧
    (∀ s c dst lhs rhs r, gen_sub fuel s c dst lhs rhs = .ok r → FrameIr c r.2) ∧
    (∀ s c dst lhs rhs r, gen_mul fuel s c dst lhs rhs = .ok r → FrameIr c r.2) ∧
    (∀ s c dst lhs rhs r, gen_div fuel s c dst lhs rhs = .ok r → FrameIr c r.2) ∧
    (∀ s c dst k lhs rhs r, gen_cmp fuel s c dst k lhs rhs = .ok r → FrameIr c r.2) ∧
    (∀ s c cond body r, gen_while fuel s c cond body = .ok r → FrameIr c r.2) := by
  intro fuel
  induction fuel with
  | zero =>
      refine ⟨fun s c e uv r h => Except.noConfusion h,
        fun s c l e uv r h => Except.noConfusion h,
        fun s c ns ret uv r h => Except.noConfusion h,
        fun s c ns r h => ?_,
        fun s c e r h => Except.noConfusion h,
        fun s c dst lhs r h => Except.noConfusion h,
        fun s c dst lhs rhs r h => Except.noConfusion h,
        fun s c dst lhs rhs r h => Except.noConfusion h,
        fun s c dst lhs rhs r h => Except.noConfusion h,
        fun s c dst lhs rhs r h => Except.noConfusion h,
        fun s c dst lhs rhs r h => Except.noConfusion h,
        fun s c dst k lhs rhs r h => Except.noConfusion h,
        fun s c cond body r h => Except.noConfusion h⟩
      rcases ns with - | ⟨n, rest⟩ <;> exact Except.noConfusion h
  | succ fuel ih =>
      obtain ⟨ihE, ihS, ihCS, ihL, ihT, ihSg, ihB, ihA, ihSu, ihM, ihD, ihC, ihW⟩ := ih
      -- gen_stmts_list
      have hL : ∀ s c ns r, gen_stmts_list (fuel + 1) s c ns = .ok r → FrameIr c r.2 := by
        intro s c ns r h
        rcases ns with - | ⟨n, rest⟩
        · cases h
          exact frame_refl c
        · simp only [gen_stmts_list] at h
          obtain ⟨⟨s1, c1⟩, h1, h2⟩ := bind_eq_ok h
          exact frame_trans (ihE _ _ _ _ _ h1) (ihL _ _ _ _ h2)
      -- gen_temp_expr
      have hT : ∀ s c e r, gen_temp_expr (fuel + 1) s c e = .ok r → FrameIr c r.2.2 := by
        intro s c e r h
        simp only [gen_temp_expr] at h
        obtain ⟨⟨s1, c1⟩, h1, h2⟩ := bind_eq_ok h
        dsimp only at h2
        obtain ⟨⟨t, s2⟩, hp, h3⟩ := bind_eq_ok h2
        cases h3
        have := ihE _ _ _ _ _ h1
        exact this
      -- gen_singular
      have hSg : ∀ s c dst lhs r, gen_singular (fuel + 1) s c dst lhs = .ok r →
          FrameIr c r.2.2.2 := by
        intro s c dst lhs r h
        simp only [gen_singular] at h
        rcases hloc : is_local lhs with - | ident
        · rw [hloc] at h
          obtain ⟨⟨t, s2, c2⟩, ht, h'⟩ := bind_eq_ok h
          dsimp only [pure, Except.pure, ok_bind] at h'
          cases h'
          have := ihT _ _ _ _ ht
          exact this
        · rw [hloc] at h
          dsimp only [pure, Except.pure, ok_bind] at h
          cases h
          exact frame_refl c
      -- gen_binary
      have hB : ∀ s c dst lhs rhs r, gen_binary (fuel + 1) s c dst lhs rhs = .ok r →
          FrameIr c r.2.2.2.2 := by
        intro s c dst lhs rhs r h
        simp only [gen_binary] at h
        rcases hll : is_local lhs with - | li <;> rcases hlr : is_local rhs with - | ri <;>
          rw [hll, hlr] at h
        · obtain ⟨⟨s1, c1⟩, h1, h⟩ := bind_eq_ok h
          dsimp only at h
          obtain ⟨⟨s2, c2⟩, h2, h⟩ := bind_eq_ok h
          dsimp only at h
          obtain ⟨⟨rr, s3⟩, hp1, h⟩ := bind_eq_ok h
          dsimp only at h
          obtain ⟨⟨ll, s4⟩, hp2, h⟩ := bind_eq_ok h
          dsimp only [pure, Except.pure, ok_bind] at h
          cases h
          have := frame_trans (ihE _ _ _ _ _ h1) (ihE _ _ _ _ _ h2)
          exact this
        · obtain ⟨⟨t, s1, c1⟩, ht, h⟩ := bind_eq_ok h
          dsimp only [pure, Except.pure, ok_bind] at h
          cases h
          have := ihT _ _ _ _ ht
          exact this
        · obtain ⟨⟨t, s1, c1⟩, ht, h⟩ := bind_eq_ok h
          dsimp only [pure, Except.pure, ok_bind] at h
          cases h
          have := ihT _ _ _ _ ht
          exact this
        · dsimp only [pure, Except.pure, ok_bind] at h
          cases h
          exact frame_refl c
      -- gen_add
      have hA : ∀ s c dst lhs rhs r, gen_add (fuel + 1) s c dst lhs rhs = .ok r →
          FrameIr c r.2 := by
        intro s c dst lhs rhs r h
        simp only [gen_add] at h
        rcases hsmi : is_smi rhs with - | i <;> rw [hsmi] at h
        · obtain ⟨⟨d, l, rr, s1, c1⟩, hb, h⟩ := bind_eq_ok h
          dsimp only at h
          cases h
          have := frame_pushI (ihB _ _ _ _ _ _ hb) (.Add d l rr)
          exact this
        · obtain ⟨⟨d, l, s1, c1⟩, hsg, h⟩ := bind_eq_ok h
          dsimp only at h
          cases h
          have := frame_pushI (ihSg _ _ _ _ _ hsg) (.Addri d l i)
          exact this
      -- gen_sub
      have hSu : ∀ s c dst lhs rhs r, gen_sub (fuel + 1) s c dst lhs rhs = .ok r →
          FrameIr c r.2 := by
        intro s c dst lhs rhs r h
        simp only [gen_sub] at h
        rcases hsmi : is_smi rhs with - | i <;> rw [hsmi] at h
        · obtain ⟨⟨d, l, rr, s1, c1⟩, hb, h⟩ := bind_eq_ok h
          dsimp only at h
          cases h
          have := frame_pushI (ihB _ _ _ _ _ _ hb) (.Sub d l rr)
          exact this
        · obtain ⟨⟨d, l, s1, c1⟩, hsg, h⟩ := bind_eq_ok h
          dsimp only at h
          cases h
          have := frame_pushI (ihSg _ _ _ _ _ hsg) (.Subri d l i)
          exact this
      -- gen_mul
      have hM : ∀ s c dst lhs rhs r, gen_mul (fuel + 1) s c dst lhs rhs = .ok r →
          FrameIr c r.2 := by
        intro s c dst lhs rhs r h
        simp only [gen_mul] at h
        obtain ⟨⟨d, l, rr, s1, c1⟩, hb, h⟩ := bind_eq_ok h
        dsimp only at h
        cases h
        have := frame_pushI (ihB _ _ _ _ _ _ hb) (.Mul d l rr)
        exact this
      -- gen_div
      have hD : ∀ s c dst lhs rhs r, gen_div (fuel + 1) s c dst lhs rhs = .ok r →
          FrameIr c r.2 := by
        intro s c dst lhs rhs r h
        simp only [gen_div] at h
        obtain ⟨⟨d, l, rr, s1, c1⟩, hb, h⟩ := bind_eq_ok h
        dsimp only at h
        cases h
        have := frame_pushI (ihB _ _ _ _ _ _ hb) (.Div d l rr)
        exact this
      -- gen_cmp
      have hC : ∀ s c dst k lhs rhs r, gen_cmp (fuel + 1) s c dst k lhs rhs = .ok r →
          FrameIr c r.2 := by
        intro s c dst k lhs rhs r h
        simp only [gen_cmp] at h
        rcases hsmi : is_smi rhs with - | i <;> rw [hsmi] at h
        · obtain ⟨⟨d, l, rr, s1, c1⟩, hb, h⟩ := bind_eq_ok h
          dsimp only at h
          cases h
          have := frame_pushI (ihB _ _ _ _ _ _ hb) (.Cmp k d l rr)
          exact this
        · obtain ⟨⟨d, l, s1, c1⟩, hsg, h⟩ := bind_eq_ok h
          dsimp only at h
          cases h
          have := frame_pushI (ihSg _ _ _ _ _ hsg) (.Cmpri k d l i)
          exact this
      -- gen_while
      have hW : ∀ s c cond body r, gen_while (fuel + 1) s c cond body = .ok r →
          FrameIr c r.2 := by
        intro s c cond body r h
        simp only [gen_while, IrContext.new_label] at h
        obtain ⟨⟨t, s1, c1⟩, hcond, h⟩ := bind_eq_ok h
        dsimp only at h
        obtain ⟨⟨s2, c2⟩, hbody, h⟩ := bind_eq_ok h
        dsimp only at h
        cases h
        refine frame_apply_label (frame_pushI ?_ _) (by simp)
        refine frame_trans ?_ (ihE _ _ _ _ _ hbody)
        refine frame_pushI ?_ _
        refine frame_trans ?_ (ihT _ _ _ _ hcond)
        exact frame_apply_label (frame_new_label (frame_new_label (frame_refl c)))
          (le_refl c.labels.length)
      -- gen_comp_stmts
      have hCS : ∀ s c ns ret uv r, gen_comp_stmts (fuel + 1) s c ns ret uv = .ok r →
          FrameIr c r.2 := by
        intro s c ns ret uv r h
        simp only [gen_comp_stmts] at h
        obtain ⟨⟨s1, c1⟩, h1, h⟩ := bind_eq_ok h
        dsimp only at h
        rcases ret with - | l
        · have := frame_trans (ihL _ _ _ _ h1) (ihE _ _ _ _ _ h)
          exact this
        · have := frame_trans (ihL _ _ _ _ h1) (ihS _ _ _ _ _ _ h)
          exact this
      -- gen_expr
      have hE : ∀ s c e uv r, gen_expr (fuel + 1) s c e uv = .ok r → FrameIr c r.2 := by
        intro s c e uv r h
        rcases e with _ | b | _ | i | f | ident | rhs | ⟨op, lhs, rhs⟩ |
          ⟨cond, then_, else_⟩ | ⟨cond_op, cond, body⟩ | e' | ns
        · rcases uv
          · simp only [gen_expr] at h
            rw [if_pos (by simp [Node.isSimpleLit])] at h
            cases h
            exact frame_refl c
          · simp only [gen_expr] at h
            rw [if_neg (by simp)] at h
            rw [gen_expr_tail_snd h]
            exact frame_gen_nil (frame_refl c) s none
        · rcases uv
          · simp only [gen_expr] at h
            rw [if_pos (by simp [Node.isSimpleLit])] at h
            cases h
            exact frame_refl c
          · simp only [gen_expr] at h
            rw [if_neg (by simp)] at h
            rw [gen_expr_tail_snd h]
            exact frame_gen_const (frame_refl c) s none (.bool b)
        · rcases uv
          · simp only [gen_expr] at h
            rw [if_pos (by simp [Node.isSimpleLit])] at h
            cases h
            exact frame_refl c
          · simp only [gen_expr] at h
            rw [if_neg (by simp)] at h
            rw [gen_expr_tail_snd h]
            exact frame_gen_temp_mov (frame_refl c) s .Self_
        · rcases uv
          · simp only [gen_expr] at h
            rw [if_pos (by simp [Node.isSimpleLit])] at h
            cases h
            exact frame_refl c
          · simp only [gen_expr] at h
            rw [if_neg (by simp)] at h
            rw [gen_expr_tail_snd h]
            exact frame_gen_integer (frame_refl c) s none i
        · rcases uv
          · simp only [gen_expr] at h
            rw [if_pos (by simp [Node.isSimpleLit])] at h
            cases h
            exact frame_refl c
          · simp only [gen_expr] at h
            rw [if_neg (by simp)] at h
            rw [gen_expr_tail_snd h]
            exact frame_gen_float (frame_refl c) s none f
        · simp only [gen_expr] at h
          rw [if_neg (by simp [Node.isSimpleLit])] at h
          obtain ⟨i, hi, h⟩ := bind_eq_ok h
          rw [gen_expr_tail_snd h]
          exact frame_gen_temp_mov (frame_refl c) s (.Local i)
        · simp only [gen_expr] at h
          rw [if_neg (by simp [Node.isSimpleLit])] at h
          split at h
          · rw [gen_expr_tail_snd h]
            exact frame_gen_integer (frame_refl c) s none _
          · rw [gen_expr_tail_snd h]
            exact frame_gen_float (frame_refl c) s none _
          · obtain ⟨⟨s1, c1⟩, h1, h⟩ := bind_eq_ok h
            dsimp only at h
            obtain ⟨r2, hneg, h⟩ := bind_eq_ok h
            rw [gen_expr_tail_snd h]
            exact frame_gen_neg (ihE _ _ _ _ _ h1) hneg
        · simp only [gen_expr] at h
          rw [if_neg (by simp [Node.isSimpleLit])] at h
          rcases op with - | - | - | - | k | -
          · obtain ⟨⟨s1, c1⟩, h1, h⟩ := bind_eq_ok h
            rw [gen_expr_tail_snd h]
            exact ihA _ _ _ _ _ _ h1
          · obtain ⟨⟨s1, c1⟩, h1, h⟩ := bind_eq_ok h
            rw [gen_expr_tail_snd h]
            exact ihSu _ _ _ _ _ _ h1
          · obtain ⟨⟨s1, c1⟩, h1, h⟩ := bind_eq_ok h
            rw [gen_expr_tail_snd h]
            exact ihM _ _ _ _ _ _ h1
          · obtain ⟨⟨s1, c1⟩, h1, h⟩ := bind_eq_ok h
            rw [gen_expr_tail_snd h]
            exact ihD _ _ _ _ _ _ h1
          · obtain ⟨⟨s1, c1⟩, h1, h⟩ := bind_eq_ok h
            rw [gen_expr_tail_snd h]
            exact ihC _ _ _ _ _ _ _ h1
          · exact Except.noConfusion h
        · simp only [gen_expr, IrContext.new_label] at h
          rw [if_neg (by simp [Node.isSimpleLit])] at h
          obtain ⟨⟨t, s1, c1⟩, hcond, h⟩ := bind_eq_ok h
          dsimp only at h
          obtain ⟨⟨s2, c2⟩, helse, h⟩ := bind_eq_ok h
          dsimp only at h
          rcases uv
          · rw [if_neg (by simp)] at h
            dsimp only [pure, Except.pure, ok_bind] at h
            obtain ⟨⟨s4, c4⟩, hthen, h⟩ := bind_eq_ok h
            dsimp only at h
            cases h
            refine frame_apply_label ?_ (by simp)
            refine frame_trans ?_ (ihE _ _ _ _ _ hthen)
            refine frame_apply_label (frame_pushI ?_ _) (le_refl _)
            refine frame_trans ?_ (ihE _ _ _ _ _ helse)
            refine frame_pushI ?_ _
            refine frame_trans ?_ (ihT _ _ _ _ hcond)
            exact frame_new_label (frame_new_label (frame_refl c))
          · rw [if_pos rfl] at h
            obtain ⟨⟨tp, s3⟩, hpop, h⟩ := bind_eq_ok h
            dsimp only [pure, Except.pure, ok_bind] at h
            obtain ⟨⟨s4, c4⟩, hthen, h⟩ := bind_eq_ok h
            dsimp only at h
            cases h
            refine frame_apply_label ?_ (by simp)
            refine frame_trans ?_ (ihE _ _ _ _ _ hthen)
            refine frame_apply_label (frame_pushI ?_ _) (le_refl _)
            refine frame_trans ?_ (ihE _ _ _ _ _ helse)
            refine frame_pushI ?_ _
            refine frame_trans ?_ (ihT _ _ _ _ hcond)
            exact frame_new_label (frame_new_label (frame_refl c))
        · simp only [gen_expr] at h
          rw [if_neg (by simp [Node.isSimpleLit])] at h
          rcases cond_op
          · rw [if_neg (by simp)] at h
            exact Except.noConfusion h
          · rw [if_pos rfl] at h
            obtain ⟨⟨s1, c1⟩, hw, h⟩ := bind_eq_ok h
            dsimp only at h
            rcases uv
            · rw [if_neg (by simp)] at h
              cases h
              exact ihW _ _ _ _ _ hw
            · rw [if_pos rfl] at h
              cases h
              exact frame_gen_nil (ihW _ _ _ _ _ hw) s1 none
        · simp only [gen_expr] at h
          rw [if_neg (by simp [Node.isSimpleLit])] at h
          split at h
          · obtain ⟨i, hi, h⟩ := bind_eq_ok h
            exact frame_gen_ret (frame_refl c) h
          · obtain ⟨⟨s1, c1⟩, h1, h⟩ := bind_eq_ok h
            dsimp only at h
            exact frame_gen_ret (ihE _ _ _ _ _ h1) h
        · simp only [gen_expr] at h
          rw [if_neg (by simp [Node.isSimpleLit])] at h
          exact ihCS _ _ _ _ _ _ h
      -- gen_store_expr
      have hS : ∀ s c l e uv r, gen_store_expr (fuel + 1) s c l e uv = .ok r →
          FrameIr c r.2 := by
        intro s c l e uv r h
        rcases e with _ | b | _ | i | f | ident | rhs | ⟨op, lhs, rhs⟩ |
          ⟨cond, then_, else_⟩ | ⟨cond_op, cond, body⟩ | e' | ns
        · simp only [gen_store_expr] at h
          exact frame_gen_store_tail (frame_gen_nil (frame_refl c) s (some l)) h
        · simp only [gen_store_expr] at h
          exact frame_gen_store_tail (frame_gen_const (frame_refl c) s (some l) (.bool b)) h
        · simp only [gen_store_expr] at h
          exact frame_gen_store_tail (frame_pushI (frame_refl c) _) h
        · simp only [gen_store_expr] at h
          exact frame_gen_store_tail (frame_gen_integer (frame_refl c) s (some l) i) h
        · simp only [gen_store_expr] at h
          exact frame_gen_store_tail (frame_gen_float (frame_refl c) s (some l) f) h
        · simp only [gen_store_expr] at h
          obtain ⟨i, hi, h⟩ := bind_eq_ok h
          exact frame_gen_store_tail (frame_pushI (frame_refl c) _) h
        · simp only [gen_store_expr] at h
          split at h
          · exact frame_gen_store_tail (frame_gen_integer (frame_refl c) s (some l) _) h
          · exact frame_gen_store_tail (frame_gen_float (frame_refl c) s (some l) _) h
          · obtain ⟨⟨s1, c1⟩, h1, h⟩ := bind_eq_ok h
            dsimp only at h
            obtain ⟨r2, hneg, h⟩ := bind_eq_ok h
            exact frame_gen_store_tail (frame_gen_neg (ihS _ _ _ _ _ _ h1) hneg) h
        · simp only [gen_store_expr] at h
          rcases op with - | - | - | - | k | -
          · obtain ⟨⟨s1, c1⟩, h1, h⟩ := bind_eq_ok h
            exact frame_gen_store_tail (ihA _ _ _ _ _ _ h1) h
          · obtain ⟨⟨s1, c1⟩, h1, h⟩ := bind_eq_ok h
            exact frame_gen_store_tail (ihSu _ _ _ _ _ _ h1) h
          · obtain ⟨⟨s1, c1⟩, h1, h⟩ := bind_eq_ok h
            exact frame_gen_store_tail (ihM _ _ _ _ _ _ h1) h
          · obtain ⟨⟨s1, c1⟩, h1, h⟩ := bind_eq_ok h
            exact frame_gen_store_tail (ihD _ _ _ _ _ _ h1) h
          · obtain ⟨⟨s1, c1⟩, h1, h⟩ := bind_eq_ok h
            exact frame_gen_store_tail (ihC _ _ _ _ _ _ _ h1) h
          · exact Except.noConfusion h
        · simp only [gen_store_expr] at h
          obtain ⟨⟨s1, c1⟩, h1, h⟩ := bind_eq_ok h
          dsimp only at h
          rcases uv
          · rw [if_neg (by simp)] at h
            obtain ⟨⟨t2, s2⟩, hpop, h⟩ := bind_eq_ok h
            dsimp only at h
            cases h
            exact frame_pushI (ihE _ _ _ _ _ h1) _
          · rw [if_pos rfl] at h
            cases h
            exact frame_pushI (ihE _ _ _ _ _ h1) _
        · simp only [gen_store_expr] at h
          obtain ⟨⟨s1, c1⟩, h1, h⟩ := bind_eq_ok h
          dsimp only at h
          rcases uv
          · rw [if_neg (by simp)] at h
            obtain ⟨⟨t2, s2⟩, hpop, h⟩ := bind_eq_ok h
            dsimp only at h
            cases h
            exact frame_pushI (ihE _ _ _ _ _ h1) _
          · rw [if_pos rfl] at h
            cases h
            exact frame_pushI (ihE _ _ _ _ _ h1) _
        · exact Except.noConfusion h
        · simp only [gen_store_expr] at h
          exact ihCS _ _ _ _ _ _ h
      exact ⟨hE, hS, hCS, hL, hT, hSg, hB, hA, hSu, hM, hD, hC, hW⟩

theorem frame_of_gen_expr {fuel : Nat} {s : GenState} {c : IrContext} {e : Node}
    {uv : Bool} {r : GenState × IrContext} (h : gen_expr fuel s c e uv = .ok r) :
    FrameIr c r.2 :=
  (gen_frame fuel).1 _ _ _ _ _ h

theorem frame_of_gen_temp_expr {fuel : Nat} {s : GenState} {c : IrContext}
    {e : Node} {r : Nat × GenState × IrContext}
    (h : gen_temp_expr fuel s c e = .ok r) : FrameIr c r.2.2 :=
  (gen_frame fuel).2.2.2.2.1 _ _ _ _ h

/-- C9: on a `while` expression the generator emits, in order: the COND
label bound at the current position; the condition code; a
conditional-not-branch to the END label; the body code (for effect); an
unconditional branch back to COND; and the END label bound after it.
When the while expression's value is consumed, a `nil` is produced on
top, and nothing is produced otherwise. -/
theorem C9_while_layout (fuel : Nat) (s : GenState) (c : IrContext)
    (cond_op : Bool) (cond body : Node) (uv : Bool) (s' : GenState)
    (c' : IrContext)
    (h : gen_expr fuel s c (.while_ cond_op cond body) uv = .ok (s', c')) :
    ∃ condCode : List BcIr, ∃ condReg : BcReg, ∃ bodyCode nilCode : List BcIr,
      c'.ir = c.ir ++ condCode ++ [BcIr.CondNotBr condReg (c.labels.length + 1)] ++
        bodyCode ++ [BcIr.Br c.labels.length] ++ nilCode ∧
      c'.labels[c.labels.length]? = some (some c.ir.length) ∧
      c'.labels[c.labels.length + 1]? =
        some (some (c.ir.length + condCode.length + 1 + bodyCode.length + 1)) ∧
      (uv = true → ∃ reg, nilCode = [BcIr.Nil reg]) ∧
      (uv = false → nilCode = []) := by
  cases fuel with
  | zero => exact Except.noConfusion h
  | succ fuel =>
    simp only [gen_expr] at h
    rw [if_neg (by simp [Node.isSimpleLit])] at h
    rcases cond_op
    · rw [if_neg (by simp)] at h
      exact Except.noConfusion h
    rw [if_pos rfl] at h
    obtain ⟨⟨s1, c1⟩, hw, h⟩ := bind_eq_ok h
    dsimp only at h
    cases fuel with
    | zero => exact Except.noConfusion hw
    | succ fuel =>
      simp only [gen_while, IrContext.new_label] at hw
      obtain ⟨⟨t, s2, c2⟩, hcond, hw⟩ := bind_eq_ok hw
      dsimp only at hw
      obtain ⟨⟨s3, c3⟩, hbody, hw⟩ := bind_eq_ok hw
      dsimp only at hw
      cases hw
      obtain ⟨⟨condCode, hcc⟩, hlen2, hpres2⟩ := frame_of_gen_temp_expr hcond
      obtain ⟨⟨bodyCode, hbc⟩, hlen3, hpres3⟩ := frame_of_gen_expr hbody
      simp only [IrContext.pushI, IrContext.apply_label, List.length_set,
        List.length_append, List.length_cons, List.length_nil] at hcc hbc hlen2 hlen3 hpres2 hpres3 ⊢
      rcases uv
      · rw [if_neg (by simp)] at h
        cases h
        refine ⟨condCode, .Temp t, bodyCode, [], ?_, ?_, ?_, by simp, fun _ => rfl⟩
        · simp only [IrContext.apply_label, IrContext.pushI]
          rw [hbc, hcc]
          try simp [List.append_assoc]
        · simp only [IrContext.apply_label, IrContext.pushI]
          rw [List.getElem?_set_ne (by simp), hpres3 _ (by omega), hpres2 _ (by omega),
            List.getElem?_set_eq_of_lt _ (by simp)]
        · simp only [IrContext.apply_label, IrContext.pushI, List.length_append,
            List.length_cons, List.length_nil]
          rw [List.getElem?_set_eq_of_lt _ (by omega)]
          simp [hbc, hcc]
          omega
      · rw [if_pos rfl] at h
        simp only [gen_nil, GenState.dest_reg, GenState.push] at h
        cases h
        refine ⟨condCode, .Temp t, bodyCode, [.Nil (.Temp s1.temp)], ?_, ?_, ?_,
          fun _ => ⟨.Temp s1.temp, rfl⟩, by simp⟩
        · simp only [IrContext.apply_label, IrContext.pushI]
          rw [hbc, hcc]
          try simp [List.append_assoc]
        · simp only [IrContext.apply_label, IrContext.pushI]
          rw [List.getElem?_set_ne (by simp), hpres3 _ (by omega), hpres2 _ (by omega),
            List.getElem?_set_eq_of_lt _ (by simp)]
        · simp only [IrContext.apply_label, IrContext.pushI, List.length_append,
            List.length_cons, List.length_nil]
          rw [List.getElem?_set_eq_of_lt _ (by omega)]
          simp [hbc, hcc]
          omega

/-- Witness for `C9_while_layout`: `while true do end` consumed for
value, generated from an empty context. -/
theorem C9_while_layout_witness :
    ∃ condCode : List BcIr, ∃ condReg : BcReg, ∃ bodyCode nilCode : List BcIr,
      (IrContext.mk [BcIr.Const (.Temp 0) 0, BcIr.CondNotBr (.Temp 0) 1,
          BcIr.Br 0, BcIr.Nil (.Temp 0)] [some 0, some 3]).ir =
        (IrContext.mk [] []).ir ++ condCode ++
          [BcIr.CondNotBr condReg ((IrContext.mk [] []).labels.length + 1)] ++
          bodyCode ++ [BcIr.Br (IrContext.mk [] []).labels.length] ++ nilCode ∧
      (IrContext.mk [BcIr.Const (.Temp 0) 0, BcIr.CondNotBr (.Temp 0) 1,
          BcIr.Br 0, BcIr.Nil (.Temp 0)]
          [some 0, some 3]).labels[(IrContext.mk [] []).labels.length]? =
        some (some (IrContext.mk [] []).ir.length) ∧
      (IrContext.mk [BcIr.Const (.Temp 0) 0, BcIr.CondNotBr (.Temp 0) 1,
          BcIr.Br 0, BcIr.Nil (.Temp 0)]
          [some 0, some 3]).labels[(IrContext.mk [] []).labels.length + 1]? =
        some (some ((IrContext.mk [] []).ir.length + condCode.length + 1 +
          bodyCode.length + 1)) ∧
      (true = true → ∃ reg, nilCode = [BcIr.Nil reg]) ∧
      (true = false → nilCode = []) :=
  C9_while_layout 9 ⟨[], 0, 0, []⟩ ⟨[], []⟩ true (.bool true) .nil true
    ⟨[], 1, 1, [.bool true]⟩
    ⟨[BcIr.Const (.Temp 0) 0, BcIr.CondNotBr (.Temp 0) 1, BcIr.Br 0,
      BcIr.Nil (.Temp 0)], [some 0, some 3]⟩ rfl

/-- C5: for `Add`, `Sub` and comparison nodes, a right-hand side that is
an integer literal surviving the i16 round trip makes the generator emit
the short-immediate opcode (`Addri`, `Subri`, `Cmpri`) as the final
instruction; any other right-hand side (in particular an integer literal
outside i16) yields the three-register form (`Add`, `Sub`, `Cmp`).  The
last part identifies the i16 round trip with the interval
`-32768 ≤ i ≤ 32767`. -/
theorem C5_smi_opcode (fuel : Nat) (s : GenState) (c : IrContext)
    (dst : Option Nat) (kind : CmpKind) (lhs rhs : Node) :
    (∀ i s' c', is_smi rhs = some i →
      (gen_add fuel s c dst lhs rhs = .ok (s', c') →
          ∃ p d l, c'.ir = p ++ [BcIr.Addri d l i]) ∧
      (gen_sub fuel s c dst lhs rhs = .ok (s', c') →
          ∃ p d l, c'.ir = p ++ [BcIr.Subri d l i]) ∧
      (gen_cmp fuel s c dst kind lhs rhs = .ok (s', c') →
          ∃ p d l, c'.ir = p ++ [BcIr.Cmpri kind d l i])) ∧
    (∀ s' c', is_smi rhs = none →
      (gen_add fuel s c dst lhs rhs = .ok (s', c') →
          ∃ p d l r, c'.ir = p ++ [BcIr.Add d l r]) ∧
      (gen_sub fuel s c dst lhs rhs = .ok (s', c') →
          ∃ p d l r, c'.ir = p ++ [BcIr.Sub d l r]) ∧
      (gen_cmp fuel s c dst kind lhs rhs = .ok (s', c') →
          ∃ p d l r, c'.ir = p ++ [BcIr.Cmp kind d l r])) ∧
    (∀ i : Int, (is_smi (Node.integer i)).isSome ↔ -(2 ^ 15) ≤ i ∧ i < 2 ^ 15) := by
  refine ⟨fun i s' c' hsmi => ?_, fun s' c' hsmi => ?_, fun i => ?_⟩
  · cases fuel with
    | zero => exact ⟨fun h => Except.noConfusion h, fun h => Except.noConfusion h,
        fun h => Except.noConfusion h⟩
    | succ fuel =>
        refine ⟨fun h => ?_, fun h => ?_, fun h => ?_⟩
        · simp only [gen_add, hsmi] at h
          obtain ⟨⟨d, l, s1, c1⟩, hsg, h⟩ := bind_eq_ok h
          dsimp only at h
          cases h
          exact ⟨c1.ir, d, l, rfl⟩
        · simp only [gen_sub, hsmi] at h
          obtain ⟨⟨d, l, s1, c1⟩, hsg, h⟩ := bind_eq_ok h
          dsimp only at h
          cases h
          exact ⟨c1.ir, d, l, rfl⟩
        · simp only [gen_cmp, hsmi] at h
          obtain ⟨⟨d, l, s1, c1⟩, hsg, h⟩ := bind_eq_ok h
          dsimp only at h
          cases h
          exact ⟨c1.ir, d, l, rfl⟩
  · cases fuel with
    | zero => exact ⟨fun h => Except.noConfusion h, fun h => Except.noConfusion h,
        fun h => Except.noConfusion h⟩
    | succ fuel =>
        refine ⟨fun h => ?_, fun h => ?_, fun h => ?_⟩
        · simp only [gen_add, hsmi] at h
          obtain ⟨⟨d, l, rr, s1, c1⟩, hb, h⟩ := bind_eq_ok h
          dsimp only at h
          cases h
          exact ⟨c1.ir, d, l, rr, rfl⟩
        · simp only [gen_sub, hsmi] at h
          obtain ⟨⟨d, l, rr, s1, c1⟩, hb, h⟩ := bind_eq_ok h
          dsimp only at h
          cases h
          exact ⟨c1.ir, d, l, rr, rfl⟩
        · simp only [gen_cmp, hsmi] at h
          obtain ⟨⟨d, l, rr, s1, c1⟩, hb, h⟩ := bind_eq_ok h
          dsimp only at h
          cases h
          exact ⟨c1.ir, d, l, rr, rfl⟩
  · simp only [is_smi, as_i16]
    split_ifs with hcond
    · simp only [Option.isSome_some, true_iff]
      norm_num at hcond ⊢
      omega
    · simp only [Option.isSome_none, Bool.false_eq_true, false_iff]
      norm_num at hcond ⊢
      omega

/-- Witness for `C5_smi_opcode`: `a + 32767` emits `Addri`,
`a + 32768` emits the three-register `Add`. -/
theorem C5_smi_opcode_witness :
    (∃ p d l, (IrContext.mk [BcIr.Addri (.Temp 0) (.Local 0) 32767] []).ir =
        p ++ [BcIr.Addri d l 32767]) ∧
    (∃ p d l r, (IrContext.mk [BcIr.Integer (.Temp 0) 32768,
        BcIr.Add (.Temp 0) (.Local 0) (.Temp 0)] []).ir = p ++ [BcIr.Add d l r]) :=
  ⟨(((C5_smi_opcode 9 ⟨[], 0, 0, []⟩ ⟨[], []⟩ none .Eq (.localVar 0)
        (.integer 32767)).1 32767 ⟨[0], 1, 1, []⟩
        ⟨[BcIr.Addri (.Temp 0) (.Local 0) 32767], []⟩ rfl).1 rfl),
   (((C5_smi_opcode 9 ⟨[], 0, 0, []⟩ ⟨[], []⟩ none .Eq (.localVar 0)
        (.integer 32768)).2.1 ⟨[0], 1, 1, []⟩
        ⟨[BcIr.Integer (.Temp 0) 32768, BcIr.Add (.Temp 0) (.Local 0) (.Temp 0)],
          []⟩ rfl).1 rfl)⟩

end Monoruby
